import Mathlib

/-!
# URLShortener: a shallow embedding of `URLShortener.go`

The Go package has four functions: `MapHandler`, `YAMLHandler`, `parseYAML`
and `buildMap`.  They are embedded here as pure Lean functions.

* A Go `map[string]string` is a finite partial function from strings to
  strings; it is embedded as `GoMap`, with the map operations the source
  uses: `make`, indexing `m[k]` (zero value `""` when the key is missing),
  the comma-ok lookup `v, ok := m[k]`, and assignment `m[k] = v`.  A nil map
  reads like the empty one.
* An `http.Handler` mutates the `http.ResponseWriter` it is given; it is
  embedded as a state transformer `W → Request → W` over an arbitrary type
  `W` of response-writer states.  A fallback is a handler that can be
  called: the nil interface value, on which `ServeHTTP` panics, is not
  modelled.
* `http.Redirect` (package `net/http`) and `yaml.Unmarshal`
  (package `gopkg.in/yaml.v2`) are library functions outside the package;
  they are taken as parameters.  What the handler does is then read off the
  calls it makes across this boundary, in order (`observe`).
-/

namespace URLShortener

/-! ## Go maps from strings to strings -/

/-- A Go `map[string]string`: `m k = none` when `k` is not a key of `m`. -/
abbrev GoMap := String → Option String

namespace GoMap

/-- The empty map, `make(map[string]string)`. -/
def make : GoMap := fun _ => none

/-- The comma-ok lookup `v, ok := m[k]`: `some v` when `ok`, otherwise `none`. -/
def lookup (m : GoMap) (k : String) : Option String := m k

/-- The plain index expression `m[k]`: the zero value `""` for a missing key. -/
def index (m : GoMap) (k : String) : String :=
  match m k with
  | some v => v
  | none => ""

/-- The assignment `m[k] = v`. -/
def set (m : GoMap) (k v : String) : GoMap :=
  fun k' => if k' = k then some v else m k'

/-- The statement `delete(m, k)` (used only to build inputs). -/
def delete (m : GoMap) (k : String) : GoMap :=
  fun k' => if k' = k then none else m k'

/-- Whether `k` is a key of `m`. -/
def HasKey (m : GoMap) (k : String) : Prop := m k ≠ none

instance (m : GoMap) (k : String) : Decidable (m.HasKey k) :=
  inferInstanceAs (Decidable (m k ≠ none))

end GoMap

/-! ## The HTTP boundary -/

/-- The part of `url.URL` the package reads. -/
structure URL where
  Path : String
deriving DecidableEq, Repr

/-- The part of `http.Request` the package reads (`r.URL.Path`), together with
the method, which `http.Redirect` consults. -/
structure Request where
  Method : String
  URL : URL
deriving DecidableEq, Repr

/-- An `http.Handler`: `ServeHTTP(w, r)` takes the response writer from one
state to the next. -/
abbrev Handler (W : Type) := W → Request → W

/-- The signature of `http.Redirect(w, r, url, code)`. -/
abbrev RedirectFn (W : Type) := W → Request → String → Nat → W

/-- The constant `http.StatusPermanentRedirect`. -/
def StatusPermanentRedirect : Nat := 308

/-! ## The package -/

/-- The function `MapHandler` of `URLShortener.go`, lines 15-22. -/
def MapHandler {W : Type} (Redirect : RedirectFn W)
    (pathsToUrls : GoMap) (fallback : Handler W) : Handler W :=
  fun w r =>
    let w :=
      match pathsToUrls.lookup r.URL.Path with
      | some path => Redirect w r path StatusPermanentRedirect
      | none => w
    fallback w r

/-- The function `buildMap` of `URLShortener.go`, lines 55-62. -/
def buildMap (yamlMap : List GoMap) : GoMap :=
  yamlMap.foldl
    (fun returnMap value =>
      let key := value.index "path"
      returnMap.set key (value.index "url"))
    GoMap.make

/-- The signature of `yaml.Unmarshal(yaml, &yamlMap)` with `yamlMap` a nil
`[]map[string]string`: the value left in `yamlMap` and the returned error
(`none` for a nil error). -/
abbrev UnmarshalFn (ε : Type) := List UInt8 → List GoMap × Option ε

/-- The function `parseYAML` of `URLShortener.go`, lines 50-53. -/
def parseYAML {ε : Type} (Unmarshal : UnmarshalFn ε) (yaml : List UInt8) :
    List GoMap × Option ε :=
  let (yamlMap, err) := Unmarshal yaml
  (yamlMap, err)

/-- The function `YAMLHandler` of `URLShortener.go`, lines 41-48.  The first
component is `none` for a nil handler, the second `none` for a nil error. -/
def YAMLHandler {W ε : Type} (Unmarshal : UnmarshalFn ε) (Redirect : RedirectFn W)
    (yaml : List UInt8) (fallback : Handler W) : Option (Handler W) × Option ε :=
  let (yamlMap, err) := parseYAML Unmarshal yaml
  if err.isSome then
    (none, err)
  else
    let pathsToURLMap := buildMap yamlMap
    (some (MapHandler Redirect pathsToURLMap fallback), err)

/-! ## Observing the calls a handler makes -/

/-- A call made across the package boundary while a request is served. -/
inductive Call where
  /-- The call `http.Redirect(w, r, url, code)`. -/
  | redirect (url : String) (code : Nat)
  /-- The call `fallback.ServeHTTP(w, r)`. -/
  | serve (r : Request)
deriving DecidableEq, Repr

/-- Whether a call is a redirect. -/
def Call.isRedirect : Call → Bool
  | .redirect _ _ => true
  | .serve _ => false

/-- Whether a call is an invocation of the fallback. -/
def Call.isServe : Call → Bool
  | .redirect _ _ => false
  | .serve _ => true

/-- The library function `Redirect`, instrumented: it acts on the writer as
`Redirect` does and appends the call to the log. -/
def logRedirect {W : Type} (Redirect : RedirectFn W) : RedirectFn (W × List Call) :=
  fun s r url code => (Redirect s.1 r url code, s.2 ++ [Call.redirect url code])

/-- The fallback `F`, instrumented: it acts on the writer as `F` does and
appends the invocation to the log. -/
def logHandler {W : Type} (F : Handler W) : Handler (W × List Call) :=
  fun s r => (F s.1 r, s.2 ++ [Call.serve r])

/-- The handler built by `MapHandler`, run on one request from writer state `w`
with an empty log: the final writer state and the calls made, in order. -/
def observe {W : Type} (Redirect : RedirectFn W) (T : GoMap) (F : Handler W)
    (w : W) (r : Request) : W × List Call :=
  MapHandler (logRedirect Redirect) T (logHandler F) (w, []) r

/-! ## The configuration record of the specification -/

/-- The two fields `buildMap` reads from a record: `value["path"]` and
`value["url"]`. -/
def fields (value : GoMap) : String × String :=
  (value.index "path", value.index "url")

/-- The last-write-wins table in the words of the specification: a path is
mapped to the url of the last record of the sequence that has this path, and
is not a key when no record has it. -/
def lastWriteWins (records : List (String × String)) : GoMap :=
  fun p => (records.reverse.find? (fun rec => decide (rec.1 = p))).map Prod.snd

/-- Whether a string starts with the separator `/`. -/
def hasLeadingSlash (s : String) : Bool :=
  s.data.head? == some '/'

/-! ## Concrete inputs -/

/-- A record with both fields, as decoded from `- path: p` / `  url: u`. -/
def record (p u : String) : GoMap :=
  (GoMap.make.set "path" p).set "url" u

/-- A `GET` request for a path. -/
def getRequest (p : String) : Request :=
  { Method := "GET", URL := { Path := p } }

/-- A response writer that records what is written to it: status codes with
the text that goes with them. -/
abbrev Lines := List (Nat × String)

/-- A stand-in for `http.Redirect` on `Lines`: it writes the status code with
the redirect target. -/
def writeRedirect : RedirectFn Lines :=
  fun w _ url code => w ++ [(code, url)]

/-- A fallback on `Lines` that answers `404`. -/
def notFound : Handler Lines :=
  fun w _ => w ++ [(404, "404 page not found")]

/-- A stand-in for `yaml.Unmarshal`: a document starting with `-` decodes to two
records with the same path; any other document is a decoding error that leaves
one record behind. -/
def sampleUnmarshal : UnmarshalFn String :=
  fun yaml =>
    if yaml.head? = some 45 then
      ([record "/a" "X", record "/a" "Y"], none)
    else
      ([record "/left-over" "Z"], some "yaml: unmarshal errors")

/-! ## Lemmas on maps and on the loop of `buildMap` -/

/-- The loop of `buildMap`, started from an arbitrary table. -/
def buildFrom (m : GoMap) (yamlMap : List GoMap) : GoMap :=
  yamlMap.foldl
    (fun returnMap value =>
      let key := value.index "path"
      returnMap.set key (value.index "url"))
    m

theorem buildMap_eq_buildFrom (R : List GoMap) : buildMap R = buildFrom GoMap.make R := rfl

theorem buildFrom_nil (m : GoMap) : buildFrom m [] = m := rfl

theorem buildFrom_cons (m : GoMap) (value : GoMap) (R : List GoMap) :
    buildFrom m (value :: R) = buildFrom (m.set (value.index "path") (value.index "url")) R := rfl

theorem buildFrom_append (m : GoMap) (R S : List GoMap) :
    buildFrom m (R ++ S) = buildFrom (buildFrom m R) S := by
  simp [buildFrom, List.foldl_append]

theorem GoMap.lookup_of_hasKey (m : GoMap) (k : String) (h : m.HasKey k) :
    m.lookup k = some (m.index k) := by
  unfold GoMap.HasKey at h
  unfold GoMap.lookup GoMap.index
  cases hk : m k with
  | none => exact absurd hk h
  | some v => rfl

theorem GoMap.lookup_of_not_hasKey (m : GoMap) (k : String) (h : ¬ m.HasKey k) :
    m.lookup k = none := by
  unfold GoMap.HasKey at h
  unfold GoMap.lookup
  exact Classical.not_not.mp h

theorem GoMap.index_of_lookup_none (m : GoMap) (k : String) (h : m.lookup k = none) :
    m.index k = "" := by
  unfold GoMap.lookup at h
  unfold GoMap.index
  rw [h]

theorem GoMap.set_same (m : GoMap) (k v : String) : (m.set k v) k = some v := by
  simp [GoMap.set]

theorem GoMap.set_other (m : GoMap) (k v p : String) (h : k ≠ p) : (m.set k v) p = m p := by
  have h' : ¬ p = k := fun e => h e.symm
  simp [GoMap.set, h']

/-- Records whose path is not `p` leave the entry of `p` as it was. -/
theorem buildFrom_apply_of_not_mem (post : List GoMap) (m : GoMap) (p : String)
    (h : ∀ x ∈ post, x.index "path" ≠ p) : buildFrom m post p = m p := by
  induction post generalizing m with
  | nil => rfl
  | cons x xs ih =>
    rw [buildFrom_cons, ih _ (fun y hy => h y (List.mem_cons_of_mem _ hy))]
    exact GoMap.set_other m _ _ p (h x (List.mem_cons_self _ _))

/-- The keys after the loop: those of the starting table and the paths of the
records. -/
theorem buildFrom_hasKey_iff (R : List GoMap) (m : GoMap) (k : String) :
    (buildFrom m R).HasKey k ↔ m.HasKey k ∨ ∃ value ∈ R, value.index "path" = k := by
  induction R generalizing m with
  | nil => simp [buildFrom_nil]
  | cons x xs ih =>
    rw [buildFrom_cons, ih]
    by_cases hk : x.index "path" = k
    · constructor
      · intro _
        exact Or.inr ⟨x, List.mem_cons_self _ _, hk⟩
      · intro _
        left
        unfold GoMap.HasKey
        rw [← hk, GoMap.set_same]
        simp
    · have hset : (m.set (x.index "path") (x.index "url")).HasKey k ↔ m.HasKey k := by
        unfold GoMap.HasKey
        rw [GoMap.set_other m _ _ k hk]
      rw [hset]
      constructor
      · rintro (h | ⟨v, hv, hvk⟩)
        · exact Or.inl h
        · exact Or.inr ⟨v, List.mem_cons_of_mem _ hv, hvk⟩
      · rintro (h | ⟨v, hv, hvk⟩)
        · exact Or.inl h
        · rcases List.mem_cons.mp hv with rfl | hv'
          · exact absurd hvk hk
          · exact Or.inr ⟨v, hv', hvk⟩

theorem buildMap_hasKey_iff (R : List GoMap) (k : String) :
    (buildMap R).HasKey k ↔ ∃ value ∈ R, value.index "path" = k := by
  rw [buildMap_eq_buildFrom, buildFrom_hasKey_iff]
  simp [GoMap.HasKey, GoMap.make]

/-- The entry of a path is the one written by the last record with this path. -/
theorem buildMap_apply_last (pre post : List GoMap) (value : GoMap) (p : String)
    (hp : value.index "path" = p) (hpost : ∀ x ∈ post, x.index "path" ≠ p) :
    buildMap (pre ++ value :: post) p = some (value.index "url") := by
  rw [buildMap_eq_buildFrom, buildFrom_append, buildFrom_cons,
    buildFrom_apply_of_not_mem post _ p hpost, ← hp]
  exact GoMap.set_same _ _ _

/-- One more turn of the loop: the last record writes its entry. -/
theorem buildMap_append_singleton (R : List GoMap) (value : GoMap) :
    buildMap (R ++ [value]) = (buildMap R).set (value.index "path") (value.index "url") := by
  rw [buildMap_eq_buildFrom, buildFrom_append, buildFrom_cons, buildFrom_nil,
    ← buildMap_eq_buildFrom]

theorem lastWriteWins_append_singleton (rs : List (String × String)) (a : String × String) :
    lastWriteWins (rs ++ [a]) = (lastWriteWins rs).set a.1 a.2 := by
  funext p
  by_cases hp : a.1 = p
  · simp [lastWriteWins, GoMap.set, hp]
  · have hp' : ¬ p = a.1 := fun e => hp e.symm
    simp [lastWriteWins, GoMap.set, hp, hp']

/-- The loop of `buildMap` computes the last-write-wins table of the record
sequence. -/
theorem buildMap_eq_lastWriteWins (R : List GoMap) :
    buildMap R = lastWriteWins (R.map fields) := by
  induction R using List.reverseRecOn with
  | nil =>
    funext p
    simp [buildMap, lastWriteWins, GoMap.make]
  | append_singleton xs x ih =>
    rw [buildMap_append_singleton, List.map_append, List.map_singleton,
      lastWriteWins_append_singleton, ih]
    rfl

/-! ## The handler built by `MapHandler` -/

/-- C1: for every table `T`, fallback `F` and request whose path `P` is a key
of `T`, the handler built by `MapHandler` calls `http.Redirect` with target
`T[P]` and status 308: the writer the fallback receives is the one that call
produced, and the redirect calls logged are exactly that one. -/
theorem MapHandler_redirects_present {W : Type} (Redirect : RedirectFn W) (T : GoMap)
    (F : Handler W) (w : W) (r : Request) (h : T.HasKey r.URL.Path) :
    MapHandler Redirect T F w r = F (Redirect w r (T.index r.URL.Path) 308) r ∧
      (observe Redirect T F w r).2.filter Call.isRedirect
        = [Call.redirect (T.index r.URL.Path) 308] := by
  have hl := GoMap.lookup_of_hasKey T _ h
  constructor
  · simp [MapHandler, hl, StatusPermanentRedirect]
  · simp [observe, MapHandler, hl, StatusPermanentRedirect, logRedirect, logHandler,
      Call.isRedirect]

theorem MapHandler_redirects_present_witness :
    (buildMap [record "/urlshort-godoc" "https://godoc.org/github.com/gophercises/urlshort"]).HasKey
        (getRequest "/urlshort-godoc").URL.Path ∧
      (observe writeRedirect
          (buildMap [record "/urlshort-godoc" "https://godoc.org/github.com/gophercises/urlshort"])
          notFound [] (getRequest "/urlshort-godoc")).2.filter Call.isRedirect
        = [Call.redirect "https://godoc.org/github.com/gophercises/urlshort" 308] :=
  ⟨by decide,
    (MapHandler_redirects_present writeRedirect
      (buildMap [record "/urlshort-godoc" "https://godoc.org/github.com/gophercises/urlshort"])
      notFound [] (getRequest "/urlshort-godoc") (by decide)).2⟩

/-- C2: for every table `T`, fallback `F` and request whose path is not a key
of `T`, the handler built by `MapHandler` makes exactly one call, the
invocation of `F` on that request with the writer untouched, and no redirect. -/
theorem MapHandler_fallback_absent {W : Type} (Redirect : RedirectFn W) (T : GoMap)
    (F : Handler W) (w : W) (r : Request) (h : ¬ T.HasKey r.URL.Path) :
    observe Redirect T F w r = (F w r, [Call.serve r]) ∧
      MapHandler Redirect T F w r = F w r := by
  have hl := GoMap.lookup_of_not_hasKey T _ h
  constructor
  · simp [observe, MapHandler, hl, logHandler]
  · simp [MapHandler, hl]

theorem MapHandler_fallback_absent_witness :
    ¬ (buildMap [record "/urlshort-godoc" "https://godoc.org/github.com/gophercises/urlshort",
          record "/yaml-godoc" "https://godoc.org/gopkg.in/yaml.v2"]).HasKey
        (getRequest "/unknown").URL.Path ∧
      observe writeRedirect
          (buildMap [record "/urlshort-godoc" "https://godoc.org/github.com/gophercises/urlshort",
            record "/yaml-godoc" "https://godoc.org/gopkg.in/yaml.v2"])
          notFound [] (getRequest "/unknown")
        = ([(404, "404 page not found")], [Call.serve (getRequest "/unknown")]) :=
  ⟨by decide,
    (MapHandler_fallback_absent writeRedirect
      (buildMap [record "/urlshort-godoc" "https://godoc.org/github.com/gophercises/urlshort",
        record "/yaml-godoc" "https://godoc.org/gopkg.in/yaml.v2"])
      notFound [] (getRequest "/unknown") (by decide)).1⟩

/-- C3: for every table `T`, fallback `F` and request whose path `P` is a key
of `T`, the handler built by `MapHandler` makes exactly two calls, in this
order: the redirect to `T[P]` with status 308, then the invocation of `F` on the
request; `F` is invoked exactly once, on the writer the redirect left. -/
theorem MapHandler_fallback_after_redirect {W : Type} (Redirect : RedirectFn W) (T : GoMap)
    (F : Handler W) (w : W) (r : Request) (h : T.HasKey r.URL.Path) :
    observe Redirect T F w r
        = (F (Redirect w r (T.index r.URL.Path) 308) r,
            [Call.redirect (T.index r.URL.Path) 308, Call.serve r]) ∧
      (observe Redirect T F w r).2.filter Call.isServe = [Call.serve r] := by
  have hl := GoMap.lookup_of_hasKey T _ h
  constructor
  · simp [observe, MapHandler, hl, StatusPermanentRedirect, logRedirect, logHandler]
  · simp [observe, MapHandler, hl, StatusPermanentRedirect, logRedirect, logHandler,
      Call.isServe]

theorem MapHandler_fallback_after_redirect_witness :
    (buildMap [record "/yaml-godoc" "https://godoc.org/gopkg.in/yaml.v2"]).HasKey
        (getRequest "/yaml-godoc").URL.Path ∧
      observe writeRedirect (buildMap [record "/yaml-godoc" "https://godoc.org/gopkg.in/yaml.v2"])
          notFound [] (getRequest "/yaml-godoc")
        = ([(308, "https://godoc.org/gopkg.in/yaml.v2"), (404, "404 page not found")],
            [Call.redirect "https://godoc.org/gopkg.in/yaml.v2" 308,
              Call.serve (getRequest "/yaml-godoc")]) :=
  ⟨by decide,
    (MapHandler_fallback_after_redirect writeRedirect
      (buildMap [record "/yaml-godoc" "https://godoc.org/gopkg.in/yaml.v2"])
      notFound [] (getRequest "/yaml-godoc") (by decide)).1⟩

/-- C8: the doc comments of `MapHandler` and `YAMLHandler` say the fallback is
called instead of redirecting; the code calls it as well.  On the table with
the single entry `/some-path` and a request for `/some-path` the handler
redirects and then calls the fallback, whose `404` lands on the same writer. -/
theorem MapHandler_fallback_called_on_match :
    (buildMap [record "/some-path" "https://www.some-url.com/demo"]).HasKey
        (getRequest "/some-path").URL.Path ∧
      observe writeRedirect (buildMap [record "/some-path" "https://www.some-url.com/demo"])
          notFound [] (getRequest "/some-path")
        = ([(308, "https://www.some-url.com/demo"), (404, "404 page not found")],
            [Call.redirect "https://www.some-url.com/demo" 308,
              Call.serve (getRequest "/some-path")]) ∧
      Call.serve (getRequest "/some-path") ∈
        (observe writeRedirect (buildMap [record "/some-path" "https://www.some-url.com/demo"])
          notFound [] (getRequest "/some-path")).2 := by
  refine ⟨by decide, by decide, by decide⟩

/-! ## The table built by `buildMap` -/

/-- C4: in every record sequence, a path is mapped by the table of `buildMap`
to the url of the last record that has this path, however many earlier records
have the same path; `value` is that last record, `post` the records after it. -/
theorem buildMap_last_write_wins (pre post : List GoMap) (value : GoMap) (p : String)
    (hp : value.index "path" = p) (hpost : ∀ x ∈ post, x.index "path" ≠ p) :
    (buildMap (pre ++ value :: post)).lookup p = some (value.index "url") := by
  unfold GoMap.lookup
  exact buildMap_apply_last pre post value p hp hpost

theorem buildMap_last_write_wins_witness :
    (record "/a" "Y").index "path" = "/a" ∧
      (∀ x ∈ ([] : List GoMap), x.index "path" ≠ "/a") ∧
      (buildMap [record "/a" "X", record "/a" "Y"]).lookup "/a" = some "Y" :=
  ⟨by decide, by simp,
    buildMap_last_write_wins [record "/a" "X"] [] (record "/a" "Y") "/a" (by decide) (by simp)⟩

/-- C7: `buildMap` skips no record.  Every record writes the entry from
`value["path"]` to `value["url"]` when its turn comes, and its path is a key of
the final table.  A record without a `path` field writes the key `""`, which is
then a key of the final table; a record without a `url` field writes the target
`""`, which is the final target of its path unless a later record has the same
path. -/
theorem buildMap_missing_fields (pre post : List GoMap) (value : GoMap) :
    buildMap (pre ++ [value])
        = (buildMap pre).set (value.index "path") (value.index "url") ∧
      (buildMap (pre ++ value :: post)).HasKey (value.index "path") ∧
      (value.lookup "path" = none →
        (buildMap (pre ++ [value])).lookup "" = some (value.index "url") ∧
          (buildMap (pre ++ value :: post)).HasKey "") ∧
      (value.lookup "url" = none →
        (buildMap (pre ++ [value])).lookup (value.index "path") = some "" ∧
          ((∀ x ∈ post, x.index "path" ≠ value.index "path") →
            (buildMap (pre ++ value :: post)).lookup (value.index "path") = some "")) := by
  have hkey : (buildMap (pre ++ value :: post)).HasKey (value.index "path") :=
    (buildMap_hasKey_iff _ _).mpr ⟨value, by simp, rfl⟩
  refine ⟨buildMap_append_singleton pre value, hkey, ?_, ?_⟩
  · intro hnone
    have hidx := GoMap.index_of_lookup_none value "path" hnone
    constructor
    · rw [buildMap_append_singleton, hidx]
      exact GoMap.set_same _ _ _
    · rw [← hidx]
      exact hkey
  · intro hnone
    have hidx := GoMap.index_of_lookup_none value "url" hnone
    constructor
    · rw [buildMap_append_singleton, hidx]
      exact GoMap.set_same _ _ _
    · intro hpost
      unfold GoMap.lookup
      rw [buildMap_apply_last pre post value _ rfl hpost, hidx]

theorem buildMap_missing_fields_witness :
    (GoMap.make.set "url" "https://example.com").lookup "path" = none ∧
      (buildMap [record "/a" "X", GoMap.make.set "url" "https://example.com"]).lookup ""
        = some "https://example.com" ∧
      (GoMap.make.set "path" "/b").lookup "url" = none ∧
      (buildMap [record "/a" "X", GoMap.make.set "path" "/b"]).lookup "/b" = some "" :=
  ⟨by decide,
    ((buildMap_missing_fields [record "/a" "X"] [] (GoMap.make.set "url" "https://example.com")).2.2.1
      (by decide)).1,
    by decide,
    ((buildMap_missing_fields [record "/a" "X"] [] (GoMap.make.set "path" "/b")).2.2.2
      (by decide)).1⟩

/-- C9: the table of `buildMap` depends only on `value["path"]` and
`value["url"]` of each record: two record sequences that agree on these two
fields, record by record, give the same table, whatever other fields their
records have. -/
theorem buildMap_only_path_and_url (R R' : List GoMap)
    (h : R.map fields = R'.map fields) : buildMap R = buildMap R' := by
  rw [buildMap_eq_lastWriteWins R, buildMap_eq_lastWriteWins R', h]

theorem buildMap_only_path_and_url_witness :
    [(record "/a" "X").set "note" "first", (record "/b" "Y").set "note" "second",
          record "/c" "Z"].map fields
        = [(record "/a" "X").set "note" "changed",
          ((record "/b" "Y").set "note" "second").delete "note",
          (record "/c" "Z").set "added" "third"].map fields ∧
      buildMap [(record "/a" "X").set "note" "first", (record "/b" "Y").set "note" "second",
          record "/c" "Z"]
        = buildMap [(record "/a" "X").set "note" "changed",
          ((record "/b" "Y").set "note" "second").delete "note",
          (record "/c" "Z").set "added" "third"] :=
  ⟨by decide,
    buildMap_only_path_and_url
      [(record "/a" "X").set "note" "first", (record "/b" "Y").set "note" "second",
        record "/c" "Z"]
      [(record "/a" "X").set "note" "changed",
        ((record "/b" "Y").set "note" "second").delete "note",
        (record "/c" "Z").set "added" "third"]
      (by decide)⟩

/-- C10, as the claim states it, fails: `buildMap` checks no path.  A record
whose path is `some-path` gives the key `some-path`, and a record without a
`path` field gives the key `""`; neither starts with `/`. -/
theorem buildMap_key_without_leading_slash :
    (buildMap [record "some-path" "https://www.some-url.com/demo"]).HasKey "some-path" ∧
      hasLeadingSlash "some-path" = false ∧
      (buildMap [GoMap.make.set "url" "https://www.some-url.com/demo"]).HasKey "" ∧
      hasLeadingSlash "" = false := by
  refine ⟨by decide, by decide, by decide, by decide⟩

/-- C10, amended: the keys of the table of `buildMap` are exactly the values
`value["path"]` of the records of the sequence, whatever they are; a record
without a `path` field gives the key `""`; and every key of the table starts
with `/` if and only if the path of every record does. -/
theorem buildMap_keys_are_record_paths (R : List GoMap) :
    (∀ k : String, (buildMap R).HasKey k ↔ ∃ value ∈ R, value.index "path" = k) ∧
      (∀ value ∈ R, value.lookup "path" = none → (buildMap R).HasKey "") ∧
      ((∀ k : String, (buildMap R).HasKey k → hasLeadingSlash k = true) ↔
        ∀ value ∈ R, hasLeadingSlash (value.index "path") = true) := by
  refine ⟨buildMap_hasKey_iff R, ?_, ?_, ?_⟩
  · intro value hmem hnone
    exact (buildMap_hasKey_iff R "").mpr
      ⟨value, hmem, GoMap.index_of_lookup_none value "path" hnone⟩
  · intro hall value hmem
    exact hall _ ((buildMap_hasKey_iff R _).mpr ⟨value, hmem, rfl⟩)
  · intro hall k hk
    obtain ⟨value, hmem, hv⟩ := (buildMap_hasKey_iff R k).mp hk
    rw [← hv]
    exact hall value hmem

theorem buildMap_keys_are_record_paths_witness :
    (buildMap [record "/a" "X", record "b" "Y", GoMap.make.set "url" "Z"]).HasKey "b" ∧
      (buildMap [record "/a" "X", record "b" "Y", GoMap.make.set "url" "Z"]).HasKey "" ∧
      ¬ (∀ k : String,
          (buildMap [record "/a" "X", record "b" "Y", GoMap.make.set "url" "Z"]).HasKey k →
            hasLeadingSlash k = true) ∧
      (∀ k : String, (buildMap [record "/a" "X", record "/b" "Y"]).HasKey k →
        hasLeadingSlash k = true) :=
  ⟨((buildMap_keys_are_record_paths
        [record "/a" "X", record "b" "Y", GoMap.make.set "url" "Z"]).1 "b").mpr
      ⟨record "b" "Y", List.mem_cons_of_mem _ (List.mem_cons_self _ _), by decide⟩,
    (buildMap_keys_are_record_paths
        [record "/a" "X", record "b" "Y", GoMap.make.set "url" "Z"]).2.1
      (GoMap.make.set "url" "Z")
      (List.mem_cons_of_mem _ (List.mem_cons_of_mem _ (List.mem_cons_self _ _))) (by decide),
    fun hall =>
      absurd
        ((buildMap_keys_are_record_paths
            [record "/a" "X", record "b" "Y", GoMap.make.set "url" "Z"]).2.2.mp hall
          (record "b" "Y") (List.mem_cons_of_mem _ (List.mem_cons_self _ _)))
        (by decide),
    (buildMap_keys_are_record_paths [record "/a" "X", record "/b" "Y"]).2.2.mpr
      (by
        intro value hmem
        rcases List.mem_cons.mp hmem with rfl | hmem
        · decide
        · rcases List.mem_cons.mp hmem with rfl | hmem
          · decide
          · exact absurd hmem (List.not_mem_nil _))⟩

/-! ## The handler built by `YAMLHandler` -/

/-- C5: when `parseYAML` returns the error `e`, `YAMLHandler` returns the nil
handler together with `e`, whatever records the decoder left behind; and for
every document, an error returned by `YAMLHandler` is the error `parseYAML`
returned. -/
theorem YAMLHandler_parse_failure {W ε : Type} (Unmarshal : UnmarshalFn ε)
    (Redirect : RedirectFn W) (yaml : List UInt8) (F : Handler W) (e : ε)
    (h : (parseYAML Unmarshal yaml).2 = some e) :
    YAMLHandler Unmarshal Redirect yaml F = (none, some e) ∧
      ∀ (yaml' : List UInt8) (F' : Handler W) (e' : ε),
        (YAMLHandler Unmarshal Redirect yaml' F').2 = some e' →
          (parseYAML Unmarshal yaml').2 = some e' := by
  constructor
  · unfold YAMLHandler
    rcases hp : parseYAML Unmarshal yaml with ⟨yamlMap, err⟩
    rw [hp] at h
    simp only at h
    subst h
    simp
  · intro yaml' F' e'
    unfold YAMLHandler
    rcases parseYAML Unmarshal yaml' with ⟨yamlMap, err⟩
    cases err with
    | none => simp
    | some e0 => simp

theorem YAMLHandler_parse_failure_witness :
    (parseYAML sampleUnmarshal [112, 97, 116, 104]).2 = some "yaml: unmarshal errors" ∧
      YAMLHandler sampleUnmarshal writeRedirect [112, 97, 116, 104] notFound
        = (none, some "yaml: unmarshal errors") :=
  ⟨by decide,
    (YAMLHandler_parse_failure sampleUnmarshal writeRedirect [112, 97, 116, 104] notFound
      "yaml: unmarshal errors" (by decide)).1⟩

/-- C6: when `parseYAML` returns the records `R` and a nil error, `YAMLHandler`
returns a nil error and a handler that acts on every writer and request as
`MapHandler (buildMap R) F` does, and `buildMap R` is the last-write-wins table
of `R`. -/
theorem YAMLHandler_success {W ε : Type} (Unmarshal : UnmarshalFn ε)
    (Redirect : RedirectFn W) (yaml : List UInt8) (F : Handler W) (R : List GoMap)
    (h : parseYAML Unmarshal yaml = (R, none)) :
    (YAMLHandler Unmarshal Redirect yaml F).2 = none ∧
      (∃ hd, (YAMLHandler Unmarshal Redirect yaml F).1 = some hd ∧
        ∀ (w : W) (r : Request), hd w r = MapHandler Redirect (buildMap R) F w r) ∧
      buildMap R = lastWriteWins (R.map fields) := by
  refine ⟨?_, ?_, buildMap_eq_lastWriteWins R⟩
  · simp [YAMLHandler, h]
  · refine ⟨MapHandler Redirect (buildMap R) F, ?_, fun _ _ => rfl⟩
    simp [YAMLHandler, h]

theorem YAMLHandler_success_witness :
    parseYAML sampleUnmarshal [45, 32] = ([record "/a" "X", record "/a" "Y"], none) ∧
      (YAMLHandler sampleUnmarshal writeRedirect [45, 32] notFound).2 = none ∧
      buildMap [record "/a" "X", record "/a" "Y"]
        = lastWriteWins ([record "/a" "X", record "/a" "Y"].map fields) :=
  ⟨rfl,
    (YAMLHandler_success sampleUnmarshal writeRedirect [45, 32] notFound
      [record "/a" "X", record "/a" "Y"] rfl).1,
    (YAMLHandler_success sampleUnmarshal writeRedirect [45, 32] notFound
      [record "/a" "X", record "/a" "Y"] rfl).2.2⟩

end URLShortener
